import Mathlib

/-!
Verification development for the mind-map interaction core.

The definitions below are shallow embeddings of the TypeScript source:
* coordinate transforms from `frontend/src/app/mindmap/page.tsx`,
* `shared/curvature-utils.ts` (direction sectors, adaptive curvature),
* the node sizing function `calculateNodeSize`,
* the JSON-patch engine `frontend/src/utils/jsonPatch.ts`,
* node deletion / connection creation from `page.tsx` and the mobile hooks.

JavaScript numbers are modelled as exact rationals (`ℚ`); all the claims
under study concern exact algebraic behaviour, and the spec's own statement
of the round-trip contract is "reproduces p exactly" under exact arithmetic.
-/

namespace MindMaps

/-! ## Coordinate system (page.tsx lines 1296-1318, 323-346)

`screenX = dimensions.width / 2 + node.x - nodeDimensions.width / 2 - offset.x + CANVAS_CENTER`
and the drag inverse
`relativeX = newX - dimensions.width / 2 + nodeDimensions.width / 2 + offset.x - CANVAS_CENTER`,
symmetric in y. -/

structure Vec2 where
  x : ℚ
  y : ℚ
deriving DecidableEq

structure ViewDims where
  width : ℚ
  height : ℚ
deriving DecidableEq

/-- World-to-screen placement of a node (page.tsx:1296-1297). -/
def worldToScreen (dims : ViewDims) (offset : Vec2) (nodeSize : Vec2) (canvasCenter : ℚ)
    (p : Vec2) : Vec2 :=
  ⟨dims.width / 2 + p.x - nodeSize.x / 2 - offset.x + canvasCenter,
   dims.height / 2 + p.y - nodeSize.y / 2 - offset.y + canvasCenter⟩

/-- Screen-to-world conversion used when a drag drops a node (page.tsx:1311-1312). -/
def screenToWorld (dims : ViewDims) (offset : Vec2) (nodeSize : Vec2) (canvasCenter : ℚ)
    (s : Vec2) : Vec2 :=
  ⟨s.x - dims.width / 2 + nodeSize.x / 2 + offset.x - canvasCenter,
   s.y - dims.height / 2 + nodeSize.y / 2 + offset.y - canvasCenter⟩

/-! ## Curvature utilities (shared/curvature-utils.ts) -/

inductive DirectionSector where
  | north
  | northeast
  | east
  | southeast
  | south
  | southwest
  | west
  | northwest
deriving DecidableEq

inductive CurvDirection where
  | clockwise
  | counterclockwise
deriving DecidableEq

/-- The three-valued `curvatureDirection` option (`'auto' | 'clockwise' | 'counterclockwise'`). -/
inductive CurvDirectionOpt where
  | auto
  | clockwise
  | counterclockwise
deriving DecidableEq

/-- Truncation toward zero, as JavaScript's `%` remainder uses on finite numbers. -/
def ratTrunc (q : ℚ) : ℤ :=
  if 0 ≤ q then ⌊q⌋ else ⌈q⌉

/-- JavaScript remainder `a % n` (sign follows the dividend). -/
def jsRemainder (a n : ℚ) : ℚ :=
  a - n * (ratTrunc (a / n) : ℚ)

/-- The normalization `((angle % 360) + 360) % 360` from `getDirectionSector`. -/
def normalizeAngle (angle : ℚ) : ℚ :=
  jsRemainder (jsRemainder angle 360 + 360) 360

/-- Embedding of `getDirectionSector` (curvature-utils.ts:41-62): the exact
if-chain of the source, over the normalized angle. -/
def getDirectionSector (angle : ℚ) : DirectionSector :=
  let normalizedAngle := normalizeAngle angle
  if 315 ≤ normalizedAngle ∨ normalizedAngle < 45 then .east
  else if 45 ≤ normalizedAngle ∧ normalizedAngle < 90 then .southeast
  else if 90 ≤ normalizedAngle ∧ normalizedAngle < 135 then .south
  else if 135 ≤ normalizedAngle ∧ normalizedAngle < 180 then .southwest
  else if 180 ≤ normalizedAngle ∧ normalizedAngle < 225 then .west
  else if 225 ≤ normalizedAngle ∧ normalizedAngle < 270 then .northwest
  else if 270 ≤ normalizedAngle ∧ normalizedAngle < 315 then .north
  else .northeast

structure CurvatureConfig where
  intensity : ℚ
  direction : CurvDirection
deriving DecidableEq

/-- Embedding of `getOptimalCurvature` (curvature-utils.ts:67-103). -/
def getOptimalCurvature (sector : DirectionSector) : CurvatureConfig :=
  match sector with
  | .north | .south => ⟨1/4, .clockwise⟩
  | .east | .west => ⟨7/20, .counterclockwise⟩
  | .northeast | .southeast => ⟨9/20, .counterclockwise⟩
  | .northwest | .southwest => ⟨9/20, .clockwise⟩

structure CurvatureOptions where
  adaptiveCurvature : Option Bool := none
  curvature : Option ℚ := none
  curvatureDirection : Option CurvDirectionOpt := none

structure AdaptiveCurvatureResult where
  intensity : ℚ
  direction : CurvDirection
  angle : ℚ
  sector : DirectionSector
deriving DecidableEq

/-- JavaScript `a || b` for an optional number: `undefined`, `0` (and `NaN`,
absent from ℚ) are falsy and fall through to the default. -/
def jsOrNum (o : Option ℚ) (dflt : ℚ) : ℚ :=
  match o with
  | some c => if c = 0 then dflt else c
  | none => dflt

/-- Truthiness of an optional boolean (`undefined` and `false` are falsy). -/
def truthyOptBool (o : Option Bool) : Bool :=
  o.getD false

/-- Embedding of `calculateAdaptiveCurvature` (curvature-utils.ts:108-146).
The angle `calculateAngle(from, to)` is `atan2`-based and transcendental, so
the already-computed angle (in degrees) is taken as the argument; everything
from that point on follows the source line by line. -/
def calculateAdaptiveCurvature (angle : ℚ) (options : CurvatureOptions) :
    AdaptiveCurvatureResult :=
  let sector := getDirectionSector angle
  if truthyOptBool options.adaptiveCurvature = false then
    { intensity := jsOrNum options.curvature (3/10)
      direction :=
        if options.curvatureDirection = some .counterclockwise then .counterclockwise
        else .clockwise
      angle := angle
      sector := sector }
  else
    let optimal := getOptimalCurvature sector
    { intensity := jsOrNum options.curvature optimal.intensity
      direction :=
        match options.curvatureDirection with
        | some .auto => optimal.direction
        | some .clockwise => .clockwise
        | some .counterclockwise => .counterclockwise
        | none => optimal.direction
      angle := angle
      sector := sector }

/-! ## Helper lemmas about the angle normalization and sector classifier -/

lemma jsRemainder_nonneg_bounds (x : ℚ) (h : 0 ≤ x) :
    0 ≤ jsRemainder x 360 ∧ jsRemainder x 360 < 360 := by
  have hq : (0:ℚ) ≤ x / 360 := by positivity
  have hfl : (⌊x / 360⌋ : ℚ) ≤ x / 360 := Int.floor_le _
  have hfl2 : x / 360 < (⌊x / 360⌋ : ℚ) + 1 := Int.lt_floor_add_one _
  simp only [jsRemainder, ratTrunc, if_pos hq]
  constructor <;> nlinarith

lemma jsRemainder_neg_bounds (x : ℚ) (h : x < 0) :
    -360 < jsRemainder x 360 ∧ jsRemainder x 360 ≤ 0 := by
  have hq : ¬ (0:ℚ) ≤ x / 360 := by
    intro hc
    nlinarith
  have hcl : x / 360 ≤ (⌈x / 360⌉ : ℚ) := Int.le_ceil _
  have hcl2 : (⌈x / 360⌉ : ℚ) - 1 < x / 360 := by
    have := Int.ceil_lt_add_one (x / 360)
    linarith
  simp only [jsRemainder, ratTrunc, if_neg hq]
  constructor <;> nlinarith

lemma normalizeAngle_bounds (a : ℚ) :
    0 ≤ normalizeAngle a ∧ normalizeAngle a < 360 := by
  unfold normalizeAngle
  rcases le_or_lt 0 a with h | h
  · have h1 := jsRemainder_nonneg_bounds a h
    exact jsRemainder_nonneg_bounds (jsRemainder a 360 + 360) (by linarith [h1.1])
  · have h1 := jsRemainder_neg_bounds a h
    exact jsRemainder_nonneg_bounds (jsRemainder a 360 + 360) (by linarith [h1.1])

lemma normalizeAngle_of_mem (a : ℚ) (h0 : 0 ≤ a) (h1 : a < 360) :
    normalizeAngle a = a := by
  have hfirst : jsRemainder a 360 = a := by
    have hq : (0:ℚ) ≤ a / 360 := by positivity
    have hfl : ⌊a / 360⌋ = 0 := by
      rw [Int.floor_eq_zero_iff]
      refine ⟨hq, ?_⟩
      rw [div_lt_one (by norm_num : (0:ℚ) < 360)]
      simpa using h1
    simp [jsRemainder, ratTrunc, if_pos hq, hfl]
  rw [normalizeAngle, hfirst]
  have hq : (0:ℚ) ≤ (a + 360) / 360 := by positivity
  have hfl : ⌊(a + 360) / 360⌋ = 1 := by
    rw [Int.floor_eq_iff]
    constructor
    · push_cast
      rw [le_div_iff₀ (by norm_num : (0:ℚ) < 360)]
      linarith
    · push_cast
      rw [div_lt_iff₀ (by norm_num : (0:ℚ) < 360)]
      linarith
  simp only [jsRemainder, ratTrunc, if_pos hq, hfl]
  push_cast
  ring

lemma getDirectionSector_unfold (a : ℚ) :
    getDirectionSector a =
      (if 315 ≤ normalizeAngle a ∨ normalizeAngle a < 45 then .east
       else if 45 ≤ normalizeAngle a ∧ normalizeAngle a < 90 then .southeast
       else if 90 ≤ normalizeAngle a ∧ normalizeAngle a < 135 then .south
       else if 135 ≤ normalizeAngle a ∧ normalizeAngle a < 180 then .southwest
       else if 180 ≤ normalizeAngle a ∧ normalizeAngle a < 225 then .west
       else if 225 ≤ normalizeAngle a ∧ normalizeAngle a < 270 then .northwest
       else if 270 ≤ normalizeAngle a ∧ normalizeAngle a < 315 then .north
       else .northeast) := rfl

lemma getDirectionSector_eq_east_of (a : ℚ)
    (h : 315 ≤ normalizeAngle a ∨ normalizeAngle a < 45) :
    getDirectionSector a = .east := by
  rw [getDirectionSector_unfold, if_pos h]



/-! ## Theorems for the coordinate system -/

/-- C1: for every viewport, scroll offset, node size and canvas-center
constant, the screen-to-world conversion is the exact inverse of the
world-to-screen conversion (and conversely), so the round trip reproduces the
world point exactly under exact arithmetic. -/
theorem screenToWorld_worldToScreen (dims : ViewDims) (offset : Vec2) (nodeSize : Vec2)
    (canvasCenter : ℚ) (p s : Vec2) :
    screenToWorld dims offset nodeSize canvasCenter
      (worldToScreen dims offset nodeSize canvasCenter p) = p ∧
    worldToScreen dims offset nodeSize canvasCenter
      (screenToWorld dims offset nodeSize canvasCenter s) = s := by
  constructor <;>
    · simp only [screenToWorld, worldToScreen]
      cases p
      cases s
      simp only [Vec2.mk.injEq]
      constructor <;> ring


/-! ## Theorems for the direction-sector classifier (C6) -/

/-- C6 counterexample: the claim says every sector spans at most 45 degrees,
but the angles 316 and 44 — whose circular distance is 88 degrees — are both
classified as `east`, so the `east` sector spans more than 45 degrees. -/
theorem getDirectionSector_east_spans_more_than_45deg :
    getDirectionSector 316 = .east ∧ getDirectionSector 44 = .east ∧
    45 < min ((316 : ℚ) - 44) (360 - (316 - 44)) := by
  refine ⟨?_, ?_, ?_⟩
  · refine getDirectionSector_eq_east_of 316 (Or.inl ?_)
    rw [normalizeAngle_of_mem 316 (by norm_num) (by norm_num)]
    norm_num
  · refine getDirectionSector_eq_east_of 44 (Or.inr ?_)
    rw [normalizeAngle_of_mem 44 (by norm_num) (by norm_num)]
    norm_num
  · rw [min_def]
    norm_num

/-- C6 (amended): the connection angle, normalized to [0, 360), is classified
into one of only 7 reachable sectors with boundaries at multiples of 45
degrees: `east` covers the 90-degree range [315,360) ∪ [0,45) and each of
`southeast`, `south`, `southwest`, `west`, `northwest`, `north` covers the
45-degree range [45,90), [90,135), [135,180), [180,225), [225,270), [270,315)
respectively; the `northeast` sector is never produced for any angle. -/
theorem getDirectionSector_characterization (a : ℚ) :
    0 ≤ normalizeAngle a ∧ normalizeAngle a < 360 ∧
    getDirectionSector a ≠ .northeast ∧
    (getDirectionSector a = .east ↔
      (315 ≤ normalizeAngle a ∨ normalizeAngle a < 45)) ∧
    (getDirectionSector a = .southeast ↔
      (45 ≤ normalizeAngle a ∧ normalizeAngle a < 90)) ∧
    (getDirectionSector a = .south ↔
      (90 ≤ normalizeAngle a ∧ normalizeAngle a < 135)) ∧
    (getDirectionSector a = .southwest ↔
      (135 ≤ normalizeAngle a ∧ normalizeAngle a < 180)) ∧
    (getDirectionSector a = .west ↔
      (180 ≤ normalizeAngle a ∧ normalizeAngle a < 225)) ∧
    (getDirectionSector a = .northwest ↔
      (225 ≤ normalizeAngle a ∧ normalizeAngle a < 270)) ∧
    (getDirectionSector a = .north ↔
      (270 ≤ normalizeAngle a ∧ normalizeAngle a < 315)) := by
  have hb := normalizeAngle_bounds a
  rw [getDirectionSector_unfold]
  set n := normalizeAngle a with hn
  split_ifs with h1 h2 h3 h4 h5 h6 h7 <;>
    refine ⟨hb.1, hb.2, ?_, ?_, ?_, ?_, ?_, ?_, ?_, ?_⟩ <;>
    simp_all <;>
    (try (rcases h1 with h1 | h1)) <;>
    (try (intro hx)) <;>
    try linarith

/-! ## Theorems for the fixed-curvature override (C10) -/

/-- C10 counterexample: with adaptiveCurvature false, an explicitly supplied
curvature of 0 does not take precedence — the JavaScript expression
`options.curvature || 0.3` treats 0 as falsy, so the returned intensity is
3/10 rather than the supplied 0. -/
theorem calculateAdaptiveCurvature_zero_curvature_ignored :
    (calculateAdaptiveCurvature 0
        ⟨some false, some 0, some .counterclockwise⟩).intensity = 3/10 ∧
    (3/10 : ℚ) ≠ 0 := by
  constructor
  · rfl
  · norm_num

/-- C10 (amended): when adaptiveCurvature is false, an explicitly supplied
nonzero curvature value takes precedence (the returned intensity equals it),
a supplied curvature of 0 or an absent curvature falls back to 3/10, and the
returned direction is counterclockwise exactly when the supplied direction is
counterclockwise (anything else, including auto or absent, yields clockwise
regardless of the sector default). -/
theorem calculateAdaptiveCurvature_fixed_override (angle : ℚ)
    (opts : CurvatureOptions) (c : ℚ)
    (hfix : truthyOptBool opts.adaptiveCurvature = false) :
    (opts.curvature = some c → c ≠ 0 →
      (calculateAdaptiveCurvature angle opts).intensity = c) ∧
    ((opts.curvature = none ∨ opts.curvature = some 0) →
      (calculateAdaptiveCurvature angle opts).intensity = 3/10) ∧
    ((calculateAdaptiveCurvature angle opts).direction = .counterclockwise ↔
      opts.curvatureDirection = some .counterclockwise) := by
  have hres : calculateAdaptiveCurvature angle opts =
      { intensity := jsOrNum opts.curvature (3/10)
        direction :=
          if opts.curvatureDirection = some .counterclockwise then .counterclockwise
          else .clockwise
        angle := angle
        sector := getDirectionSector angle } := by
    rw [calculateAdaptiveCurvature]
    rw [if_pos hfix]
  rw [hres]
  refine ⟨?_, ?_, ?_⟩
  · intro hc hc0
    simp [jsOrNum, hc, hc0]
  · intro hc
    rcases hc with hc | hc <;> simp [jsOrNum, hc]
  · split_ifs with hd <;> simp [hd]

/-- Witness for C10's amended theorem at a concrete input: angle 0,
adaptiveCurvature false, curvature 1/2, direction clockwise. -/
theorem calculateAdaptiveCurvature_fixed_override_witness :
    (calculateAdaptiveCurvature 0
        ⟨some false, some (1/2), some .clockwise⟩).intensity = 1/2 ∧
    ¬ ((calculateAdaptiveCurvature 0
        ⟨some false, some (1/2), some .clockwise⟩).direction = .counterclockwise) := by
  have h := calculateAdaptiveCurvature_fixed_override 0
    ⟨some false, some (1/2), some .clockwise⟩ (1/2) rfl
  refine ⟨h.1 rfl (by norm_num), ?_⟩
  intro hd
  have := h.2.2.mp hd
  simp at this


/-! ## Node sizing engine (`calculateNodeSize`, mobile `nodeSize` utility)

JavaScript string lengths count UTF-16 code units; the Lean model counts
characters, which agrees on all inputs used here. -/

/-- JavaScript `String.prototype.trim`: strip leading and trailing whitespace. -/
def jsTrim (s : String) : String :=
  String.mk (((s.data.dropWhile Char.isWhitespace).reverse.dropWhile Char.isWhitespace).reverse)

/-- Split on whitespace runs: the effect of `text.split(/\\s+/)` on
already-trimmed text (no empty fragments remain). -/
def splitWhitespaceAux : List Char → List Char → List (List Char)
  | [], cur => if cur.isEmpty then [] else [cur.reverse]
  | c :: cs, cur =>
    if c.isWhitespace then
      if cur.isEmpty then splitWhitespaceAux cs []
      else cur.reverse :: splitWhitespaceAux cs []
    else splitWhitespaceAux cs (c :: cur)

def splitWhitespace (s : String) : List String :=
  (splitWhitespaceAux s.data []).map String.mk

structure NodeDimensions where
  width : ℚ
  height : ℚ
deriving DecidableEq

/-- Embedding of `calculateNodeSize` (mobile nodeSize utility, lines 33-97).
The memo cache is omitted: it is keyed by the trimmed text and stores the
value computed by this very branch structure, so it is observationally the
identity. `Math.ceil(textLength / 16)` on naturals is `(textLength + 15) / 16`
in ℕ division. -/
def calculateNodeSize (text : String) : NodeDimensions :=
  let baseWidth : ℚ := 120
  let baseHeight : ℚ := 65
  let trimmedText := jsTrim text
  if trimmedText = "" then ⟨baseWidth, baseHeight⟩
  else
    let textLength := trimmedText.length
    if textLength ≤ 15 then ⟨120, 65⟩
    else if textLength ≤ 20 then ⟨160, 75⟩
    else if textLength ≤ 30 then ⟨180, 85⟩
    else if textLength ≤ 50 then ⟨200, 95⟩
    else
      let words := splitWhitespace trimmedText
      let centeredTextCharsPerLine : ℕ := 16
      let estimatedLines := (textLength + centeredTextCharsPerLine - 1) / centeredTextCharsPerLine
      let actualLines := min estimatedLines 5
      let longestWord := (words.map String.length).foldl max 0
      let charWidthFactor : ℚ := 15/2
      let estimatedWidth :=
        max (baseWidth + (longestWord : ℚ) * charWidthFactor)
            (baseWidth + (textLength : ℚ) * (7/2))
      let estimatedHeight := baseHeight + ((actualLines : ℚ) - 1) * 22 + 12
      ⟨min 250 (max baseWidth estimatedWidth), min 150 (max baseHeight estimatedHeight)⟩

/-- The width produced for a trimmed length, as a function of the length
alone: in the dynamic band the length-driven lower bound 120 + l * 3.5
already exceeds the 250 cap for every l > 50, so the longest-word term is
irrelevant there. -/
def sizeWidthFn (l : ℕ) : ℚ :=
  if l ≤ 15 then 120
  else if l ≤ 20 then 160
  else if l ≤ 30 then 180
  else if l ≤ 50 then 200
  else 250

/-- The capped dynamic-band height for a trimmed length. -/
def heightDyn (l : ℕ) : ℚ :=
  min 150 (65 + (((min ((l + 15) / 16) 5 : ℕ) : ℚ) - 1) * 22 + 12)

/-- The height produced for a trimmed length, as a function of the length alone. -/
def sizeHeightFn (l : ℕ) : ℚ :=
  if l ≤ 15 then 65
  else if l ≤ 20 then 75
  else if l ≤ 30 then 85
  else if l ≤ 50 then 95
  else heightDyn l

lemma heightDyn_lines_ge (l : ℕ) (h : 50 < l) : 4 ≤ min ((l + 15) / 16) 5 := by
  omega

lemma widthCapEq (a l : ℚ) (hl : 51 ≤ l) :
    min 250 (max 120 (max (120 + a * (15/2)) (120 + l * (7/2)))) = 250 := by
  refine min_eq_left ?_
  refine le_trans ?_ (le_max_right _ _)
  refine le_trans ?_ (le_max_right _ _)
  linarith

lemma heightUncapEq (k : ℚ) (hk : 4 ≤ k) :
    min 150 (max 65 (65 + (k - 1) * 22 + 12)) = min 150 (65 + (k - 1) * 22 + 12) := by
  have h65 : (65:ℚ) ≤ 65 + (k - 1) * 22 + 12 := by linarith
  rw [max_eq_right h65]

lemma heightDyn_ge (l : ℕ) (h : 50 < l) : 143 ≤ heightDyn l := by
  have h4 := heightDyn_lines_ge l h
  have h5 : min ((l + 15) / 16) 5 ≤ 5 := min_le_right _ _
  unfold heightDyn
  have hcast : (4:ℚ) ≤ ((min ((l + 15) / 16) 5 : ℕ) : ℚ) := by exact_mod_cast h4
  have hcast5 : ((min ((l + 15) / 16) 5 : ℕ) : ℚ) ≤ 5 := by exact_mod_cast h5
  rw [le_min_iff]
  constructor
  · norm_num
  · linarith

lemma heightDyn_le (l : ℕ) : heightDyn l ≤ 150 := min_le_left _ _

lemma heightDyn_mono (l₁ l₂ : ℕ) (h : l₁ ≤ l₂) : heightDyn l₁ ≤ heightDyn l₂ := by
  have hdiv : (l₁ + 15) / 16 ≤ (l₂ + 15) / 16 := Nat.div_le_div_right (by omega)
  have hmin : min ((l₁ + 15) / 16) 5 ≤ min ((l₂ + 15) / 16) 5 := by omega
  have hcast : ((min ((l₁ + 15) / 16) 5 : ℕ) : ℚ) ≤ ((min ((l₂ + 15) / 16) 5 : ℕ) : ℚ) := by
    exact_mod_cast hmin
  unfold heightDyn
  apply min_le_min le_rfl
  linarith

/-- The sizing function evaluates to the pure band functions of the trimmed
length: in particular its result depends only on the trimmed text's length. -/
lemma calculateNodeSize_eq_fn (s : String) :
    calculateNodeSize s =
      ⟨sizeWidthFn (jsTrim s).length, sizeHeightFn (jsTrim s).length⟩ := by
  unfold calculateNodeSize sizeWidthFn sizeHeightFn
  by_cases h0 : jsTrim s = ""
  · rw [if_pos h0, h0]
    norm_num [heightDyn]
  · rw [if_neg h0]
    set l := (jsTrim s).length with hl
    by_cases h15 : l ≤ 15
    · simp [h15]
    by_cases h20 : l ≤ 20
    · simp [h15, h20]
    by_cases h30 : l ≤ 30
    · simp [h15, h20, h30]
    by_cases h50 : l ≤ 50
    · simp [h15, h20, h30, h50]
    · simp only [if_neg h15, if_neg h20, if_neg h30, if_neg h50]
      have hl51 : (51:ℚ) ≤ (l : ℚ) := by
        have h51 : 51 ≤ l := by omega
        exact_mod_cast h51
      have h4 := heightDyn_lines_ge l (by omega)
      have hcast : (4:ℚ) ≤ ((min ((l + 15) / 16) 5 : ℕ) : ℚ) := by exact_mod_cast h4
      refine congrArg₂ NodeDimensions.mk ?_ ?_
      · exact widthCapEq _ _ hl51
      · exact heightUncapEq _ hcast

lemma sizeWidthFn_mono (l₁ l₂ : ℕ) (h : l₁ ≤ l₂) : sizeWidthFn l₁ ≤ sizeWidthFn l₂ := by
  unfold sizeWidthFn
  split_ifs <;> first | (exfalso; omega) | norm_num

lemma sizeHeightFn_mono (l₁ l₂ : ℕ) (h : l₁ ≤ l₂) : sizeHeightFn l₁ ≤ sizeHeightFn l₂ := by
  unfold sizeHeightFn
  split_ifs <;>
    first
      | (exfalso; omega)
      | (norm_num; done)
      | (exact heightDyn_mono l₁ l₂ h)
      | (refine le_trans ?_ (heightDyn_ge l₂ (by omega)); norm_num)

/-! ## Theorems for the node sizing engine (C8, C9) -/

/-- C8: the node sizing function is deterministic — it is a pure function of
the trimmed text (identical trimmed text yields identical dimensions,
independent of any call history; the source memo cache is keyed by the
trimmed text and stores exactly this value) — and both width and height are
monotonically non-decreasing as the trimmed length increases across the band
boundaries. -/
theorem calculateNodeSize_deterministic_monotone (s t : String) :
    (jsTrim s = jsTrim t → calculateNodeSize s = calculateNodeSize t) ∧
    ((jsTrim s).length ≤ (jsTrim t).length →
      (calculateNodeSize s).width ≤ (calculateNodeSize t).width ∧
      (calculateNodeSize s).height ≤ (calculateNodeSize t).height) := by
  constructor
  · intro h
    rw [calculateNodeSize_eq_fn, calculateNodeSize_eq_fn, h]
  · intro h
    rw [calculateNodeSize_eq_fn, calculateNodeSize_eq_fn]
    exact ⟨sizeWidthFn_mono _ _ h, sizeHeightFn_mono _ _ h⟩

/-- Witness for C8 at concrete inputs: trimming-invariance on "  hello " vs
"hello", and monotonicity from "hi" to "hello". -/
theorem calculateNodeSize_deterministic_monotone_witness :
    calculateNodeSize "  hello " = calculateNodeSize "hello" ∧
    (calculateNodeSize "hi").width ≤ (calculateNodeSize "hello").width ∧
    (calculateNodeSize "hi").height ≤ (calculateNodeSize "hello").height := by
  have h1 := calculateNodeSize_deterministic_monotone "  hello " "hello"
  have h2 := calculateNodeSize_deterministic_monotone "hi" "hello"
  exact ⟨h1.1 (by decide), h2.2 (by decide)⟩

/-- C9 counterexample: on an 80-character text the sizing function returns a
250-by-150 box, exceeding the claimed cap of about 220 by 130. -/
theorem calculateNodeSize_cap_exceeds_220x130 :
    calculateNodeSize (String.mk (List.replicate 80 'a')) = ⟨250, 150⟩ ∧
    ¬ ((250:ℚ) ≤ 220) ∧ ¬ ((150:ℚ) ≤ 130) := by
  have htrim : jsTrim (String.mk (List.replicate 80 'a')) =
      String.mk (List.replicate 80 'a') := by decide
  have hlen : (String.mk (List.replicate 80 'a')).length = 80 := by decide
  refine ⟨?_, by norm_num, by norm_num⟩
  rw [calculateNodeSize_eq_fn, htrim, hlen]
  have hw : sizeWidthFn 80 = 250 := by
    simp [sizeWidthFn]
  have hh : sizeHeightFn 80 = 150 := by
    have h16 : (80 + 15) / 16 = 5 := by norm_num
    simp only [sizeHeightFn, heightDyn, h16]
    norm_num
  rw [hw, hh]

/-- C9 (amended): for non-empty trimmed text the sizing function maps the
trimmed length into discrete bands with thresholds at 15, 20, 30 and 50
characters followed by a dynamic formula, and its result is capped at a
maximum box of 250 wide by 150 high. -/
theorem calculateNodeSize_band_structure (s : String) (h : jsTrim s ≠ "") :
    ((jsTrim s).length ≤ 15 → calculateNodeSize s = ⟨120, 65⟩) ∧
    (15 < (jsTrim s).length → (jsTrim s).length ≤ 20 →
      calculateNodeSize s = ⟨160, 75⟩) ∧
    (20 < (jsTrim s).length → (jsTrim s).length ≤ 30 →
      calculateNodeSize s = ⟨180, 85⟩) ∧
    (30 < (jsTrim s).length → (jsTrim s).length ≤ 50 →
      calculateNodeSize s = ⟨200, 95⟩) ∧
    (50 < (jsTrim s).length →
      calculateNodeSize s = ⟨250, heightDyn (jsTrim s).length⟩) ∧
    (calculateNodeSize s).width ≤ 250 ∧ (calculateNodeSize s).height ≤ 150 := by
  rw [calculateNodeSize_eq_fn]
  refine ⟨?_, ?_, ?_, ?_, ?_, ?_, ?_⟩
  · intro h15
    simp only [sizeWidthFn, sizeHeightFn, if_pos h15]
  · intro h15 h20
    simp only [sizeWidthFn, sizeHeightFn, if_neg (by omega : ¬ (jsTrim s).length ≤ 15),
      if_pos h20]
  · intro h20 h30
    simp only [sizeWidthFn, sizeHeightFn, if_neg (by omega : ¬ (jsTrim s).length ≤ 15),
      if_neg (by omega : ¬ (jsTrim s).length ≤ 20), if_pos h30]
  · intro h30 h50
    simp only [sizeWidthFn, sizeHeightFn, if_neg (by omega : ¬ (jsTrim s).length ≤ 15),
      if_neg (by omega : ¬ (jsTrim s).length ≤ 20),
      if_neg (by omega : ¬ (jsTrim s).length ≤ 30), if_pos h50]
  · intro h50
    simp only [sizeWidthFn, sizeHeightFn, if_neg (by omega : ¬ (jsTrim s).length ≤ 15),
      if_neg (by omega : ¬ (jsTrim s).length ≤ 20),
      if_neg (by omega : ¬ (jsTrim s).length ≤ 30),
      if_neg (by omega : ¬ (jsTrim s).length ≤ 50)]
  · unfold sizeWidthFn
    split_ifs <;> norm_num
  · unfold sizeHeightFn
    split_ifs <;> first | (norm_num; done) | (exact heightDyn_le _)

/-- Witness for C9's amended theorem at a concrete input: a 17-character text
falls in the second band (160 by 75) and respects the caps. -/
theorem calculateNodeSize_band_structure_witness :
    calculateNodeSize "hello world again" = ⟨160, 75⟩ ∧
    (calculateNodeSize "hello world again").width ≤ 250 ∧
    (calculateNodeSize "hello world again").height ≤ 150 := by
  have h := calculateNodeSize_band_structure "hello world again" (by decide)
  exact ⟨h.2.1 (by decide) (by decide), h.2.2.2.2.2⟩

/-! ## JSON patch engine (`frontend/src/utils/jsonPatch.ts`)

The engine operates on arbitrary JSON data. `clone` in the source is a
`JSON.parse(JSON.stringify(...))` round trip, which on JSON data is the
identity, except that `clone(undefined)` throws (and the per-operation
`try`/`catch` then skips the operation); the model makes every such throwing
path an explicit skip. TypeScript modules run in strict mode, so assigning a
property to a primitive throws (skip); expando properties on arrays are
outside the JSON data model and those (unreachable-by-contract) paths are
also modelled as skips. -/

inductive Json where
  | null
  | bool (b : Bool)
  | num (q : ℚ)
  | str (s : String)
  | arr (items : List Json)
  | obj (fields : List (String × Json))

instance : Inhabited Json := ⟨.null⟩

/-- JavaScript object property read (objects have unique keys; the first
matching entry is authoritative). -/
def objGet (fields : List (String × Json)) (k : String) : Option Json :=
  (fields.find? (fun p => p.1 = k)).map (fun p => p.2)

/-- JavaScript object property write: replace in place if present, else append. -/
def objSet (fields : List (String × Json)) (k : String) (v : Json) :
    List (String × Json) :=
  if fields.any (fun p => p.1 = k) then
    fields.map (fun p => if p.1 = k then (k, v) else p)
  else fields ++ [(k, v)]

/-- JavaScript `delete o[k]`. -/
def objDelete (fields : List (String × Json)) (k : String) : List (String × Json) :=
  fields.filter (fun p => ¬ p.1 = k)

/-- JavaScript truthiness of a JSON value. -/
def truthy : Json → Bool
  | .null => false
  | .bool b => b
  | .num q => q ≠ 0
  | .str s => s ≠ ""
  | .arr _ => true
  | .obj _ => true

/-- Truthiness of an optional value (`undefined` is falsy). -/
def truthyOpt : Option Json → Bool
  | none => false
  | some j => truthy j

/-- Replace every (non-overlapping, left-to-right) occurrence of the
two-character pattern `p1 p2` by `r`, as `String.replace(/xy/g, "r")` does. -/
def jsReplace2 (p1 p2 r : Char) : List Char → List Char
  | a :: b :: rest =>
      if a = p1 ∧ b = p2 then r :: jsReplace2 p1 p2 r rest
      else a :: jsReplace2 p1 p2 r (b :: rest)
  | other => other

/-- `decodePointerSegment` (jsonPatch.ts:19-21): `~1` to `/` first, then `~0` to `~`. -/
def decodePointerSegment (seg : String) : String :=
  String.mk (jsReplace2 '~' '0' '~' (jsReplace2 '~' '1' '/' seg.data))

/-- JavaScript `s.split(sep)` for a one-character separator
(`"".split('/') = [""]`, empty fragments preserved). -/
def jsSplitCharAux (sep : Char) : List Char → List Char → List String
  | [], cur => [String.mk cur.reverse]
  | c :: cs, cur =>
      if c = sep then String.mk cur.reverse :: jsSplitCharAux sep cs []
      else jsSplitCharAux sep cs (c :: cur)

def jsSplitChar (sep : Char) (s : String) : List String :=
  jsSplitCharAux sep s.data []

/-- JavaScript test that the path ends with the two characters slash, dash. -/
def endsWithSlashDash (s : String) : Bool :=
  match s.data.reverse with
  | '-' :: '/' :: _ => true
  | _ => false

/-- JavaScript `parseInt(s, 10)`: skip leading whitespace, optional sign,
then the longest digit run; `NaN` (here `none`) when no digits follow. -/
def parseIntJS (s : String) : Option ℤ :=
  let cs := s.data.dropWhile Char.isWhitespace
  let signed : Bool × List Char :=
    match cs with
    | '-' :: rest => (true, rest)
    | '+' :: rest => (false, rest)
    | _ => (false, cs)
  let digits := signed.2.takeWhile Char.isDigit
  if digits.isEmpty then none
  else
    let n : ℕ := digits.foldl (fun acc c => acc * 10 + (c.toNat - 48)) 0
    some (if signed.1 then -(n : ℤ) else (n : ℤ))

/-- Canonical array-index strings, as JavaScript indexed access `a[k]` treats
them (no leading zeros, no sign, no whitespace). -/
def canonIndex (k : String) : Option ℕ :=
  match k.toNat? with
  | some n => if toString n = k then some n else none
  | none => none

/-- Set index `n`, extending with nulls if the list is shorter (JavaScript
index assignment beyond the length creates holes, which JSON-serialize as
null). -/
def listSetPad : List Json → ℕ → Json → List Json
  | [], 0, v => [v]
  | [], n+1, v => .null :: listSetPad [] n v
  | _ :: xs, 0, v => v :: xs
  | x :: xs, n+1, v => x :: listSetPad xs n v

/-- Insert before position `n` (already clamped to `[0, length]`), as
`splice(n, 0, v)`. -/
def listInsertAt : ℕ → Json → List Json → List Json
  | 0, v, xs => v :: xs
  | _+1, v, [] => [v]
  | n+1, v, x :: xs => x :: listInsertAt n v xs

inductive PatchOpKind where
  | add
  | remove
  | replace
deriving DecidableEq

structure JsonPatchOp where
  op : PatchOpKind
  path : String
  value : Option Json := none

/-- `MapState`: the `{nodes, connections}` snapshot with passthrough of any
extra top-level fields (jsonPatch.ts:12-17); operations never touch `extra`. -/
structure MapState where
  nodes : List Json
  connections : List Json
  extra : List (String × Json) := []

def MapState.getTarget (s : MapState) (target : String) : List Json :=
  if target = "nodes" then s.nodes else s.connections

def MapState.setTarget (s : MapState) (target : String) (xs : List Json) : MapState :=
  if target = "nodes" then { s with nodes := xs } else { s with connections := xs }

/-- Default fields for an appended node (jsonPatch.ts:55-58, 85-87): set
`x`/`y` to 0 unless already numbers. A non-object value cannot take the
assignment (strict-mode throw): the operation is skipped. -/
def nodeDefaults (v : Json) : Option Json :=
  match v with
  | .obj fs =>
      let fs1 := if (match objGet fs "x" with | some (.num _) => true | _ => false) then fs
        else objSet fs "x" (.num 0)
      let fs2 := if (match objGet fs1 "y" with | some (.num _) => true | _ => false) then fs1
        else objSet fs1 "y" (.num 0)
      some (.obj fs2)
  | _ => none

/-- Default styling fields for an appended connection (jsonPatch.ts:47-54,
88-95), each set only when absent. -/
def connectionDefaults (v : Json) : Option Json :=
  match v with
  | .obj fs =>
      let f1 := if (objGet fs "type").isNone then objSet fs "type" (.str "curved") else fs
      let f2 := if (objGet f1 "width").isNone then objSet f1 "width" (.num 2) else f1
      let f3 := if (objGet f2 "showArrow").isNone then objSet f2 "showArrow" (.bool true) else f2
      let f4 := if (objGet f3 "arrowPosition").isNone then objSet f3 "arrowPosition" (.str "end")
        else f3
      let f5 := if (objGet f4 "color").isNone then objSet f4 "color" (.str "#6b7280") else f4
      let f6 := if (objGet f5 "relation").isNone then objSet f5 "relation" (.str "generico")
        else f5
      some (.obj f6)
  | _ => none

/-- The final step of a nested-path operation (jsonPatch.ts:124-146): apply
`op` at property `lastKey` of the resolved container. `none` means the
JavaScript execution throws (or leaves the JSON data model) and the operation
is skipped. -/
def applyAtCursor : PatchOpKind → Option Json → String → Json → Option Json
  | .remove, _, lastKey, .arr xs =>
      if lastKey = "-" then some (.arr xs.dropLast)
      else
        match parseIntJS lastKey with
        | some idx =>
            if 0 ≤ idx ∧ idx < (xs.length : ℤ) then some (.arr (xs.eraseIdx idx.toNat))
            else some (.arr xs)
        | none => some (.arr xs)
  | .remove, _, lastKey, .obj fs => some (.obj (objDelete fs lastKey))
  | .remove, _, _, .null => none
  | .remove, _, _, cursor => some cursor
  | .replace, none, _, _ => none
  | .replace, some v, lastKey, .obj fs => some (.obj (objSet fs lastKey v))
  | .replace, some v, lastKey, .arr xs =>
      (canonIndex lastKey).map (fun n => .arr (listSetPad xs n v))
  | .replace, some _, _, _ => none
  | .add, value, lastKey, .arr xs =>
      if lastKey = "-" then value.map (fun v => .arr (xs ++ [v]))
      else
        match parseIntJS lastKey with
        | some idx =>
            value.map (fun v =>
              let start : ℤ := if idx < 0 then max ((xs.length : ℤ) + idx) 0
                else min idx (xs.length : ℤ)
              .arr (listInsertAt start.toNat v xs))
        | none => none
  | .add, value, lastKey, .obj fs => value.map (fun v => .obj (objSet fs lastKey v))
  | .add, _, _, _ => none

/-- The intermediate-segment walk of a nested-path operation
(jsonPatch.ts:112-122): follow each key, materializing `{}` for a missing key
only under `add`; a missing key under `remove`/`replace`, or any step through
a non-container, skips the operation. The source mutates through aliases into
the cloned item; the model threads the updated child back up. -/
def navigate (k : PatchOpKind) (value : Option Json) :
    List String → String → Json → Option Json
  | [], lastKey, cursor => applyAtCursor k value lastKey cursor
  | key :: rest, lastKey, cursor =>
      match cursor with
      | .obj fs =>
          match objGet fs key with
          | some child =>
              (navigate k value rest lastKey child).map
                (fun child2 => .obj (objSet fs key child2))
          | none =>
              if k = .add then
                (navigate k value rest lastKey (.obj [])).map
                  (fun child2 => .obj (objSet fs key child2))
              else none
      | .arr xs =>
          match canonIndex key with
          | some n =>
              match xs[n]? with
              | some child =>
                  (navigate k value rest lastKey child).map
                    (fun child2 => .arr (xs.set n child2))
              | none =>
                  if k = .add then
                    (navigate k value rest lastKey (.obj [])).map
                      (fun child2 => .arr (listSetPad xs n child2))
                  else none
          | none => none
      | _ => none

/-- The last path segment of a nonempty segment list. -/
def lastSeg : String → List String → String
  | d, [] => d
  | _, x :: xs => lastSeg x xs

/-- The decoded path segments: `op.path.split('/').slice(1).map(decodePointerSegment)`. -/
def pathSegments (path : String) : List String :=
  ((jsSplitChar '/' path).drop 1).map decodePointerSegment

/-- One iteration of the `for (const op of patch)` loop of `applyJsonPatch`
(jsonPatch.ts:30-154), branching on the already-computed path segments: apply
a single operation, returning the state unchanged on every skip/throw path. -/
def applyOpSegs (state : MapState) (op : JsonPatchOp) : List String → MapState
  | [] => state
  | target :: restSegs =>
      if target ≠ "nodes" ∧ target ≠ "connections" then state
      else
        let arr := state.getTarget target
        match restSegs with
        | [] =>
            if op.op = .add ∧ truthyOpt op.value ∧ endsWithSlashDash op.path then
              match op.value with
              | some v =>
                  match (if target = "connections" then connectionDefaults v
                    else nodeDefaults v) with
                  | some v2 => state.setTarget target (arr ++ [v2])
                  | none => state
              | none => state
            else state
        | indexSeg :: more =>
            let isAppend := indexSeg = "-"
            match (if isAppend then some (arr.length : ℤ) else parseIntJS indexSeg) with
            | none => state
            | some index =>
                match more with
                | [] =>
                    match op.op with
                    | .remove =>
                        if ¬ isAppend ∧ 0 ≤ index ∧ index < (arr.length : ℤ) then
                          state.setTarget target (arr.eraseIdx index.toNat)
                        else state
                    | .replace =>
                        match op.value with
                        | some v =>
                            if ¬ isAppend ∧ 0 ≤ index ∧ index < (arr.length : ℤ) then
                              state.setTarget target (arr.set index.toNat v)
                            else state
                        | none => state
                    | .add =>
                        match op.value with
                        | some v =>
                            if ¬ truthy v then state
                            else if isAppend then
                              match (if target = "nodes" then nodeDefaults v
                                else connectionDefaults v) with
                              | some v2 => state.setTarget target (arr ++ [v2])
                              | none => state
                            else if 0 ≤ index ∧ index ≤ (arr.length : ℤ) then
                              state.setTarget target (listInsertAt index.toNat v arr)
                            else state
                        | none => state
                | m2 :: more2 =>
                    if isAppend then state
                    else if ¬ (0 ≤ index ∧ index < (arr.length : ℤ)) then state
                    else
                      let item := arr.getD index.toNat .null
                      match navigate op.op op.value ((m2 :: more2).dropLast)
                          (lastSeg m2 more2) item with
                      | some item2 => state.setTarget target (arr.set index.toNat item2)
                      | none => state

/-- One operation step on a state: compute the decoded segments of the path,
then branch. -/
def applyOp (state : MapState) (op : JsonPatchOp) : MapState :=
  applyOpSegs state op (pathSegments op.path)

/-- `applyJsonPatch` (jsonPatch.ts:27-157): fold the per-operation step over
the operation list. The initial shallow copies (`{...state, nodes: [...],
connections: [...]}`) are the identity on values. -/
def applyJsonPatch (state : MapState) (patch : List JsonPatchOp) : MapState :=
  patch.foldl applyOp state

/-! ## Helper lemmas about the JSON object and array primitives -/

lemma objGet_map_update_self (fs : List (String × Json)) (k : String) (v : Json)
    (h : fs.any (fun p => p.1 = k) = true) :
    objGet (fs.map (fun p => if p.1 = k then (k, v) else p)) k = some v := by
  induction fs with
  | nil => simp at h
  | cons p fs ih =>
      by_cases hp : p.1 = k
      · simp [objGet, hp]
      · have h2 : fs.any (fun p => p.1 = k) = true := by
          simp only [List.any_cons, Bool.or_eq_true, decide_eq_true_eq] at h
          tauto
        simp only [List.map_cons, if_neg hp]
        simp only [objGet] at ih ⊢
        rw [List.find?_cons_of_neg _ (by simpa using hp)]
        exact ih h2

lemma objGet_append_single_self (fs : List (String × Json)) (k : String) (v : Json)
    (h : fs.any (fun p => p.1 = k) = false) :
    objGet (fs ++ [(k, v)]) k = some v := by
  induction fs with
  | nil => simp [objGet]
  | cons p fs ih =>
      simp only [List.any_cons, Bool.or_eq_false_iff, decide_eq_false_iff_not] at h
      simp only [List.cons_append]
      simp only [objGet] at ih ⊢
      rw [List.find?_cons_of_neg _ (by simpa using h.1)]
      exact ih (by simpa using h.2)

lemma objGet_map_update_ne (fs : List (String × Json)) (k k2 : String) (v : Json)
    (h : k2 ≠ k) :
    objGet (fs.map (fun p => if p.1 = k then (k, v) else p)) k2 = objGet fs k2 := by
  induction fs with
  | nil => simp [objGet]
  | cons p fs ih =>
      by_cases hp : p.1 = k
      · simp only [List.map_cons, if_pos hp]
        simp only [objGet] at ih ⊢
        rw [List.find?_cons_of_neg _ (by simpa using fun hc : k = k2 => h hc.symm),
          List.find?_cons_of_neg _ (by
            simp only [decide_eq_true_eq, hp]
            exact fun hc => h hc.symm)]
        exact ih
      · simp only [List.map_cons, if_neg hp]
        by_cases hp2 : p.1 = k2
        · simp only [objGet]
          rw [List.find?_cons_of_pos _ (by simpa using hp2),
            List.find?_cons_of_pos _ (by simpa using hp2)]
        · simp only [objGet] at ih ⊢
          rw [List.find?_cons_of_neg _ (by simpa using hp2),
            List.find?_cons_of_neg _ (by simpa using hp2)]
          exact ih

lemma objGet_append_single_ne (fs : List (String × Json)) (k k2 : String) (v : Json)
    (h : k2 ≠ k) :
    objGet (fs ++ [(k, v)]) k2 = objGet fs k2 := by
  induction fs with
  | nil =>
      simp only [List.nil_append, objGet]
      rw [List.find?_cons_of_neg _ (by simpa using fun hc : k = k2 => h hc.symm)]
  | cons p fs ih =>
      simp only [List.cons_append]
      by_cases hp2 : p.1 = k2
      · simp only [objGet]
        rw [List.find?_cons_of_pos _ (by simpa using hp2),
          List.find?_cons_of_pos _ (by simpa using hp2)]
      · simp only [objGet] at ih ⊢
        rw [List.find?_cons_of_neg _ (by simpa using hp2),
          List.find?_cons_of_neg _ (by simpa using hp2)]
        exact ih

lemma objSet_objSet (fs : List (String × Json)) (k : String) (a b : Json) :
    objSet (objSet fs k a) k b = objSet fs k b := by
  unfold objSet
  by_cases h : fs.any (fun p => p.1 = k)
  · rw [if_pos h]
    have hany2 : ((fs.map (fun p => if p.1 = k then (k, a) else p)).any
        (fun p => p.1 = k)) = true := by
      rw [List.any_map]
      rw [show ((fun p : String × Json => decide (p.1 = k)) ∘
          (fun p => if p.1 = k then (k, a) else p)) =
          (fun p : String × Json => decide (p.1 = k)) from funext fun p => by
        by_cases hp : p.1 = k <;> simp [Function.comp, hp]]
      exact h
    rw [if_pos hany2, if_pos h, List.map_map]
    refine List.map_congr_left (fun p _ => ?_)
    by_cases hp : p.1 = k <;> simp [Function.comp, hp]
  · rw [if_neg h]
    have hany2 : ((fs ++ [(k, a)]).any (fun p => p.1 = k)) = true := by
      simp [List.any_append]
    rw [if_pos hany2, if_neg h, List.map_append]
    have hmapid : fs.map (fun p => if p.1 = k then (k, b) else p) = fs := by
      have hid : fs.map (fun p => if p.1 = k then (k, b) else p) = fs.map id := by
        refine List.map_congr_left (fun p hp => ?_)
        have hne : ¬ p.1 = k := by
          intro hc
          exact h (List.any_eq_true.mpr ⟨p, hp, by simpa using hc⟩)
        rw [if_neg hne]
        rfl
      simpa using hid
    rw [hmapid]
    simp

lemma objGet_objSet_self (fs : List (String × Json)) (k : String) (v : Json) :
    objGet (objSet fs k v) k = some v := by
  unfold objSet
  by_cases h : fs.any (fun p => p.1 = k)
  · rw [if_pos h]
    exact objGet_map_update_self fs k v h
  · rw [if_neg h]
    refine objGet_append_single_self fs k v ?_
    simp only [Bool.not_eq_true] at h
    exact h

lemma objGet_objSet_ne (fs : List (String × Json)) (k k2 : String) (v : Json)
    (h : k2 ≠ k) :
    objGet (objSet fs k v) k2 = objGet fs k2 := by
  unfold objSet
  by_cases hany : fs.any (fun p => p.1 = k)
  · rw [if_pos hany]
    exact objGet_map_update_ne fs k k2 v h
  · rw [if_neg hany]
    exact objGet_append_single_ne fs k k2 v h

lemma listSetPad_length (xs : List Json) (n : ℕ) (v : Json) :
    (listSetPad xs n v).length = max xs.length (n + 1) := by
  induction xs generalizing n with
  | nil =>
      induction n with
      | zero => simp [listSetPad]
      | succ m ih => simp [listSetPad, ih]; try omega
  | cons x xs ih =>
      cases n with
      | zero => simp [listSetPad]; try omega
      | succ m => simp [listSetPad, ih]; try omega

lemma getElem?_listSetPad_self (xs : List Json) (n : ℕ) (v : Json) :
    (listSetPad xs n v)[n]? = some v := by
  induction xs generalizing n with
  | nil =>
      induction n with
      | zero => simp [listSetPad]
      | succ m ih => simpa [listSetPad] using ih
  | cons x xs ih =>
      cases n with
      | zero => simp [listSetPad]
      | succ m => simpa [listSetPad] using ih m

lemma listSetPad_listSetPad (xs : List Json) (n : ℕ) (a b : Json) :
    listSetPad (listSetPad xs n a) n b = listSetPad xs n b := by
  induction xs generalizing n with
  | nil =>
      induction n with
      | zero => simp [listSetPad]
      | succ m ih => simpa [listSetPad] using ih
  | cons x xs ih =>
      cases n with
      | zero => simp [listSetPad]
      | succ m => simpa [listSetPad] using ih m

lemma getTarget_setTarget (s : MapState) (t : String) (xs : List Json) :
    (s.setTarget t xs).getTarget t = xs := by
  unfold MapState.setTarget MapState.getTarget
  by_cases h : t = "nodes" <;> simp [h]

lemma setTarget_setTarget (s : MapState) (t : String) (xs ys : List Json) :
    (s.setTarget t xs).setTarget t ys = s.setTarget t ys := by
  unfold MapState.setTarget
  by_cases h : t = "nodes" <;> simp [h]

/-! ## Theorems for the patch engine (C5) -/

/-- C5: applying the single replace of node index 1's title to a 3-node
snapshot changes exactly that one field: node 0 and node 2 are unchanged, the
connections and all extra top-level fields are unchanged, node 1's title
becomes the new value and all its other fields are preserved. (The source
builds the result on shallow copies and a cloned item, never writing through
the input object; in this pure model the input snapshot is immutable by
construction.) -/
theorem applyJsonPatch_replace_title_frame (s : MapState) (n0 : Json)
    (fs : List (String × Json)) (n2 : Json) (v : Json)
    (hnodes : s.nodes = [n0, .obj fs, n2]) :
    (applyJsonPatch s [⟨.replace, "/nodes/1/title", some v⟩]).nodes
        = [n0, .obj (objSet fs "title" v), n2] ∧
    (applyJsonPatch s [⟨.replace, "/nodes/1/title", some v⟩]).connections
        = s.connections ∧
    (applyJsonPatch s [⟨.replace, "/nodes/1/title", some v⟩]).extra = s.extra ∧
    objGet (objSet fs "title" v) "title" = some v ∧
    (∀ k, k ≠ "title" → objGet (objSet fs "title" v) k = objGet fs k) := by
  obtain ⟨ns, cs, ex⟩ := s
  simp only at hnodes
  subst hnodes
  exact ⟨rfl, rfl, rfl, objGet_objSet_self fs "title" v,
    fun k hk => objGet_objSet_ne fs "title" k v hk⟩

/-- Witness for C5 at a concrete 3-node snapshot. -/
theorem applyJsonPatch_replace_title_frame_witness :
    (applyJsonPatch
        ⟨[.obj [("id", .str "1"), ("title", .str "A")],
          .obj [("id", .str "2"), ("title", .str "B")],
          .obj [("id", .str "3"), ("title", .str "C")]], [], []⟩
        [⟨.replace, "/nodes/1/title", some (.str "X")⟩]).nodes
      = [.obj [("id", .str "1"), ("title", .str "A")],
         .obj (objSet [("id", .str "2"), ("title", .str "B")] "title" (.str "X")),
         .obj [("id", .str "3"), ("title", .str "C")]] ∧
    objGet (objSet [("id", .str "2"), ("title", .str "B")] "title" (.str "X")) "id"
      = some (.str "2") := by
  have h := applyJsonPatch_replace_title_frame
    ⟨[.obj [("id", .str "1"), ("title", .str "A")],
      .obj [("id", .str "2"), ("title", .str "B")],
      .obj [("id", .str "3"), ("title", .str "C")]], [], []⟩
    (.obj [("id", .str "1"), ("title", .str "A")])
    [("id", .str "2"), ("title", .str "B")]
    (.obj [("id", .str "3"), ("title", .str "C")])
    (.str "X") rfl
  refine ⟨h.1, ?_⟩
  rw [h.2.2.2.2 "id" (by decide)]
  rfl

/-- A concrete 3-node snapshot used by the concrete-instance theorems. -/
def demoState3 : MapState :=
  ⟨[.obj [("id", .str "1"), ("title", .str "A")],
    .obj [("id", .str "2"), ("title", .str "B")],
    .obj [("id", .str "3"), ("title", .str "C")]], [], []⟩

/-- A replace targeting node index 99 (out of bounds on a 3-node graph). -/
def demoOob99Op : JsonPatchOp := ⟨.replace, "/nodes/99/title", some (.str "X")⟩

/-- A replace of node index 1's title. -/
def demoReplaceOp : JsonPatchOp := ⟨.replace, "/nodes/1/title", some (.str "X")⟩

/-- The empty snapshot. -/
def demoEmptyState : MapState := ⟨[], [], []⟩

/-- An append of a new node to the nodes array. -/
def demoAppendNodeOp : JsonPatchOp :=
  ⟨.add, "/nodes/-", some (.obj [("title", .str "Nuovo"), ("x", .num 0), ("y", .num 0)])⟩

/-! ## Theorems for the patch engine error handling (C2) -/

/-- C2: the patch engine degrades gracefully. It is a total function (the
model of the per-operation try/catch: every throwing path is an explicit
skip), and (a) an operation whose path root is neither nodes nor connections
leaves the snapshot unchanged; (b) an operation whose index segment parses to
an out-of-bounds index (negative or beyond the target array) with op remove
or replace leaves the snapshot unchanged — in particular a patch referencing
node 99 of a 3-node graph is a no-op; (c) a skipped operation anywhere in the
list does not prevent the remaining operations from being applied. -/
theorem applyJsonPatch_skip_semantics (s : MapState) (op : JsonPatchOp)
    (pre post : List JsonPatchOp) :
    ((∀ root rest, pathSegments op.path = root :: rest →
        root ≠ "nodes" ∧ root ≠ "connections") →
      applyOp s op = s) ∧
    (∀ root idxSeg rest i,
      pathSegments op.path = root :: idxSeg :: rest →
      parseIntJS idxSeg = some i →
      (i < 0 ∨ ((s.getTarget root).length : ℤ) ≤ i) →
      (op.op = .remove ∨ op.op = .replace) →
      applyOp s op = s) ∧
    (applyOp (applyJsonPatch s pre) op = applyJsonPatch s pre →
      applyJsonPatch s (pre ++ op :: post) = applyJsonPatch s (pre ++ post)) := by
  refine ⟨?_, ?_, ?_⟩
  · intro h
    unfold applyOp
    cases hseg : pathSegments op.path with
    | nil => rfl
    | cons root rest =>
        have hr := h root rest hseg
        simp only [applyOpSegs, if_pos hr]
  · intro root idxSeg rest i hseg hparse hoob hkind
    have hdash : ¬ (idxSeg = "-") := by
      intro hc
      rw [hc] at hparse
      have hnone : parseIntJS "-" = none := rfl
      rw [hnone] at hparse
      exact Option.noConfusion hparse
    unfold applyOp
    rw [hseg]
    by_cases hroot : root ≠ "nodes" ∧ root ≠ "connections"
    · simp only [applyOpSegs, if_pos hroot]
    · simp only [applyOpSegs, if_neg hroot, if_neg hdash, hparse]
      have hcond : ¬ (¬ idxSeg = "-" ∧ 0 ≤ i ∧ i < ((s.getTarget root).length : ℤ)) := by
        rintro ⟨-, h0, hlt⟩
        rcases hoob with hneg | hlen <;> omega
      cases rest with
      | nil =>
          rcases hkind with hk | hk <;> rw [hk]
          · rw [if_neg hcond]
          · rcases hv : op.value with - | v
            · rfl
            · simp only [if_neg hcond]
      | cons m2 more2 =>
          have hc2 : ¬ (0 ≤ i ∧ i < ((s.getTarget root).length : ℤ)) := by
            rintro ⟨h0, hlt⟩
            rcases hoob with hneg | hlen <;> omega
          simp only [if_pos hc2]
  · intro h
    unfold applyJsonPatch at h ⊢
    rw [List.foldl_append, List.foldl_append]
    simp only [List.foldl_cons]
    rw [h]

/-- Witness for C2 at concrete inputs: the replace of node 99's title on a
3-node snapshot is skipped, and a following operation still applies. -/
theorem applyJsonPatch_skip_semantics_witness :
    applyOp demoState3 demoOob99Op = demoState3 ∧
    applyJsonPatch demoState3 [demoOob99Op, demoReplaceOp]
      = applyJsonPatch demoState3 [demoReplaceOp] := by
  have h := applyJsonPatch_skip_semantics demoState3 demoOob99Op [] [demoReplaceOp]
  have hskip : applyOp demoState3 demoOob99Op = demoState3 :=
    h.2.1 "nodes" "99" ["title"] 99 rfl rfl (Or.inr (by decide)) (Or.inr rfl)
  exact ⟨hskip, h.2.2 hskip⟩

/-! ## Theorems for patch idempotence (C7) -/

lemma applyAtCursor_replace_idem (v : Option Json) (lastKey : String)
    (cursor out : Json)
    (h : applyAtCursor .replace v lastKey cursor = some out) :
    applyAtCursor .replace v lastKey out = some out := by
  cases v with
  | none => simp [applyAtCursor] at h
  | some w =>
      cases cursor with
      | null => simp [applyAtCursor] at h
      | bool b => simp [applyAtCursor] at h
      | num q => simp [applyAtCursor] at h
      | str t => simp [applyAtCursor] at h
      | obj fs =>
          simp only [applyAtCursor, Option.some.injEq] at h
          subst h
          simp only [applyAtCursor, objSet_objSet]
      | arr xs =>
          simp only [applyAtCursor] at h
          rcases hci : canonIndex lastKey with - | n
          · rw [hci] at h
            simp at h
          · rw [hci] at h
            rw [Option.map_some', Option.some.injEq] at h
            subst h
            simp only [applyAtCursor, hci, Option.map_some', listSetPad_listSetPad]

lemma navigate_replace_idem (v : Option Json) (segs : List String) (lastKey : String) :
    ∀ cursor out : Json, navigate .replace v segs lastKey cursor = some out →
      navigate .replace v segs lastKey out = some out := by
  induction segs with
  | nil =>
      intro cursor out h
      simp only [navigate] at h ⊢
      exact applyAtCursor_replace_idem v lastKey cursor out h
  | cons key rest ih =>
      intro cursor out h
      cases cursor with
      | null => simp [navigate] at h
      | bool b => simp [navigate] at h
      | num q => simp [navigate] at h
      | str t => simp [navigate] at h
      | obj fs =>
          simp only [navigate] at h
          rcases hg : objGet fs key with - | child
          · rw [hg] at h
            simp at h
          · rw [hg] at h
            dsimp only at h
            rcases hn : navigate .replace v rest lastKey child with - | child2
            · rw [hn] at h
              simp at h
            · rw [hn] at h
              rw [Option.map_some', Option.some.injEq] at h
              subst h
              simp only [navigate, objGet_objSet_self]
              rw [ih child child2 hn, Option.map_some', objSet_objSet]
      | arr xs =>
          simp only [navigate] at h
          rcases hci : canonIndex key with - | n
          · rw [hci] at h
            simp at h
          · rw [hci] at h
            dsimp only at h
            rcases hx : xs[n]? with - | child
            · rw [hx] at h
              simp at h
            · rw [hx] at h
              dsimp only at h
              rcases hn : navigate .replace v rest lastKey child with - | child2
              · rw [hn] at h
                simp at h
              · rw [hn] at h
                rw [Option.map_some', Option.some.injEq] at h
                subst h
                have hlt : n < xs.length := by
                  by_contra hcon
                  rw [List.getElem?_eq_none (by omega)] at hx
                  exact Option.noConfusion hx
                have hx2 : (xs.set n child2)[n]? = some child2 := by
                  rw [List.getElem?_set_self]
                  simp [hlt]
                simp only [navigate, hci, hx2]
                rw [ih child child2 hn, Option.map_some', List.set_set]

lemma applyOpSegs_replace_idem (s : MapState) (op : JsonPatchOp)
    (hop : op.op = .replace) (segs : List String) :
    applyOpSegs (applyOpSegs s op segs) op segs = applyOpSegs s op segs := by
  match segs with
  | [] => rfl
  | [target] =>
      by_cases hroot : target ≠ "nodes" ∧ target ≠ "connections"
      · simp only [applyOpSegs, if_pos hroot]
      · have hna : ¬ (op.op = .add ∧ truthyOpt op.value = true ∧
            endsWithSlashDash op.path = true) := by
          rw [hop]
          rintro ⟨hc, -⟩
          exact PatchOpKind.noConfusion hc
        have hskip : applyOpSegs s op [target] = s := by
          simp only [applyOpSegs, if_neg hroot, if_neg hna]
        rw [hskip, hskip]
  | target :: idxSeg :: more =>
      by_cases hroot : target ≠ "nodes" ∧ target ≠ "connections"
      · simp only [applyOpSegs, if_pos hroot]
      · by_cases hdash : idxSeg = "-"
        · cases more with
          | nil =>
              have hskip : applyOpSegs s op [target, idxSeg] = s := by
                simp only [applyOpSegs, if_neg hroot, if_pos hdash]
                rw [hop]
                rcases hv : op.value with - | v
                · rfl
                · dsimp only
                  rw [if_neg (by rintro ⟨hc, -⟩; exact hc hdash)]
              rw [hskip, hskip]
          | cons m2 ms =>
              have hskip : applyOpSegs s op (target :: idxSeg :: m2 :: ms) = s := by
                simp only [applyOpSegs, if_neg hroot, if_pos hdash]
              rw [hskip, hskip]
        · rcases hp : parseIntJS idxSeg with - | idx
          · have hskip : applyOpSegs s op (target :: idxSeg :: more) = s := by
              simp only [applyOpSegs, if_neg hroot, if_neg hdash, hp]
            rw [hskip, hskip]
          · cases more with
            | nil =>
                rcases hv : op.value with - | v
                · have hskip : applyOpSegs s op [target, idxSeg] = s := by
                    simp only [applyOpSegs, if_neg hroot, if_neg hdash, hp]
                    rw [hop]
                    dsimp only
                    rw [hv]
                  rw [hskip, hskip]
                · by_cases hb : 0 ≤ idx ∧ idx < ((s.getTarget target).length : ℤ)
                  · have hfirst : applyOpSegs s op [target, idxSeg] =
                        s.setTarget target ((s.getTarget target).set idx.toNat v) := by
                      simp only [applyOpSegs, if_neg hroot, if_neg hdash, hp]
                      rw [hop]
                      dsimp only
                      rw [hv]
                      dsimp only
                      rw [if_pos ⟨hdash, hb⟩]
                    rw [hfirst]
                    have harr : (s.setTarget target
                        ((s.getTarget target).set idx.toNat v)).getTarget target =
                        (s.getTarget target).set idx.toNat v :=
                      getTarget_setTarget _ _ _
                    have hb2 : 0 ≤ idx ∧ idx <
                        (((s.setTarget target ((s.getTarget target).set idx.toNat v)).getTarget
                          target).length : ℤ) := by
                      rw [harr, List.length_set]
                      exact hb
                    simp only [applyOpSegs, if_neg hroot, if_neg hdash, hp]
                    rw [hop]
                    dsimp only
                    rw [hv]
                    dsimp only
                    rw [if_pos ⟨hdash, hb2⟩, harr, List.set_set, setTarget_setTarget]
                  · have hskip : applyOpSegs s op [target, idxSeg] = s := by
                      simp only [applyOpSegs, if_neg hroot, if_neg hdash, hp]
                      rw [hop]
                      dsimp only
                      rw [hv]
                      dsimp only
                      rw [if_neg (by rintro ⟨-, hbb⟩; exact hb hbb)]
                    rw [hskip, hskip]
            | cons m2 ms =>
                by_cases hb : 0 ≤ idx ∧ idx < ((s.getTarget target).length : ℤ)
                · rcases hn : navigate op.op op.value ((m2 :: ms).dropLast)
                      (lastSeg m2 ms) ((s.getTarget target).getD idx.toNat .null)
                    with - | item2
                  · have hskip : applyOpSegs s op (target :: idxSeg :: m2 :: ms) = s := by
                      simp only [applyOpSegs, if_neg hroot, if_neg hdash, hp,
                        if_neg (not_not_intro hb), hn]
                    rw [hskip, hskip]
                  · have hfirst : applyOpSegs s op (target :: idxSeg :: m2 :: ms) =
                        s.setTarget target ((s.getTarget target).set idx.toNat item2) := by
                      simp only [applyOpSegs, if_neg hroot, if_neg hdash, hp,
                        if_neg (not_not_intro hb), hn]
                    rw [hfirst]
                    have harr : (s.setTarget target
                        ((s.getTarget target).set idx.toNat item2)).getTarget target =
                        (s.getTarget target).set idx.toNat item2 :=
                      getTarget_setTarget _ _ _
                    have hlt : idx.toNat < (s.getTarget target).length := by omega
                    have hb2 : ¬ ¬ (0 ≤ idx ∧ idx <
                        (((s.setTarget target ((s.getTarget target).set idx.toNat
                          item2)).getTarget target).length : ℤ)) := by
                      rw [harr, List.length_set]
                      exact fun hc => hc hb
                    have hitem : ((s.getTarget target).set idx.toNat item2).getD
                        idx.toNat .null = item2 := by
                      rw [List.getD_eq_getElem?_getD, List.getElem?_set_self]
                      · simp
                      · simpa using hlt
                    have hn2 : navigate op.op op.value ((m2 :: ms).dropLast)
                        (lastSeg m2 ms) item2 = some item2 := by
                      rw [hop] at hn ⊢
                      exact navigate_replace_idem op.value ((m2 :: ms).dropLast)
                        (lastSeg m2 ms) _ item2 hn
                    simp only [applyOpSegs, if_neg hroot, if_neg hdash, hp, if_neg hb2,
                      harr, hitem, hn2, List.set_set, setTarget_setTarget]
                    split_ifs <;> rfl
                · have hskip : applyOpSegs s op (target :: idxSeg :: m2 :: ms) = s := by
                    simp only [applyOpSegs, if_neg hroot, if_neg hdash, hp, if_pos hb]
                  rw [hskip, hskip]

/-- C7: the patch engine is idempotent for replace at a fixed path and value
(for every snapshot, applying the one-element replace patch twice equals
applying it once, whether the path addresses a whole item or any nested
field), and it is not idempotent for add-with-append: appending a node to the
empty snapshot twice yields two copies, not one. -/
theorem applyJsonPatch_replace_idem_add_append_not (s : MapState)
    (op : JsonPatchOp) (hop : op.op = .replace) :
    applyJsonPatch (applyJsonPatch s [op]) [op] = applyJsonPatch s [op] ∧
    (applyJsonPatch demoEmptyState [demoAppendNodeOp]).nodes.length = 1 ∧
    (applyJsonPatch (applyJsonPatch demoEmptyState [demoAppendNodeOp])
      [demoAppendNodeOp]).nodes.length = 2 := by
  refine ⟨?_, rfl, rfl⟩
  show applyOp (applyOp s op) op = applyOp s op
  unfold applyOp
  exact applyOpSegs_replace_idem s op hop (pathSegments op.path)

/-- Witness for C7 at a concrete input: the nested title replace applied
twice to the 3-node snapshot equals applying it once. -/
theorem applyJsonPatch_replace_idem_witness :
    applyJsonPatch (applyJsonPatch demoState3 [demoReplaceOp]) [demoReplaceOp]
      = applyJsonPatch demoState3 [demoReplaceOp] :=
  (applyJsonPatch_replace_idem_add_append_not demoState3 demoReplaceOp rfl).1

/-! ## Graph UI state: node deletion and connection creation
(page.tsx handleNodeDelete/createConnection and the mobile hooks) -/

structure NodeRec where
  id : String
  title : String
  x : ℚ
  y : ℚ
  color : Option String := none
deriving DecidableEq

structure ConnRec where
  id : String
  sourceId : String
  targetId : String
  type : String := "curved"
  curvature : Option ℚ := none
  adaptiveCurvature : Option Bool := none
  curvatureDirection : Option String := none
  color : Option String := none
  width : Option ℚ := none
  showArrow : Option Bool := none
  arrowPosition : Option String := none
  relation : Option String := none
deriving DecidableEq

/-- The page state fields touched by `handleNodeDelete` on the web front end
(history snapshots and the dirty flag omitted — they do not affect the graph). -/
structure GraphUIState where
  nodes : List NodeRec
  connections : List ConnRec
  currentEditingNodeId : Option String
  connectionSourceNodeId : Option String
  isConnectionMode : Bool
deriving DecidableEq

/-- Embedding of `handleNodeDelete` (page.tsx:549-580): filter the node out,
filter out connections referencing it, clear the editing reference and the
connection-source reference (plus connection mode) when they equal the
deleted id. -/
def handleNodeDelete (nodeId : String) (s : GraphUIState) : GraphUIState :=
  { nodes := s.nodes.filter (fun node => node.id != nodeId)
    connections := s.connections.filter
      (fun c => c.sourceId != nodeId && c.targetId != nodeId)
    currentEditingNodeId :=
      if s.currentEditingNodeId = some nodeId then none else s.currentEditingNodeId
    connectionSourceNodeId :=
      if s.connectionSourceNodeId = some nodeId then none else s.connectionSourceNodeId
    isConnectionMode :=
      if s.connectionSourceNodeId = some nodeId then false else s.isConnectionMode }

/-- The state fields touched by the mobile `handleNodeDelete`
(useNodeOperations.ts:122-149). -/
structure MobileUIState where
  nodes : List NodeRec
  connections : List ConnRec
  currentEditingNodeId : Option String
  connectionSourceNodeId : Option String
deriving DecidableEq

/-- Embedding of the mobile `handleNodeDelete` (useNodeOperations.ts:122-149). -/
def handleNodeDeleteMobile (nodeId : String) (s : MobileUIState) : MobileUIState :=
  { nodes := s.nodes.filter (fun node => node.id != nodeId)
    connections := s.connections.filter
      (fun c => c.sourceId != nodeId && c.targetId != nodeId)
    currentEditingNodeId :=
      if s.currentEditingNodeId = some nodeId then none else s.currentEditingNodeId
    connectionSourceNodeId :=
      if s.connectionSourceNodeId = some nodeId then none else s.connectionSourceNodeId }

/-- The duplicate check of `createConnection` (page.tsx:421-424 and
useConnectionOperations.ts:83-87): a connection between the two ids exists in
either direction. -/
def connectionExists (conns : List ConnRec) (sourceId targetId : String) : Bool :=
  conns.any (fun conn =>
    (conn.sourceId == sourceId && conn.targetId == targetId) ||
    (conn.sourceId == targetId && conn.targetId == sourceId))

/-- Embedding of the web `createConnection` (page.tsx:414-453): reject
self-connections and duplicates, else append the new styled connection (the
history snapshot and dirty flag are omitted as before; the fresh id built
from `Date.now()` is a parameter). -/
def createConnection (conns : List ConnRec) (sourceId targetId newId : String) :
    List ConnRec :=
  if sourceId = targetId then conns
  else if connectionExists conns sourceId targetId then conns
  else conns ++ [{ id := newId, sourceId := sourceId, targetId := targetId,
                   type := "curved", adaptiveCurvature := some true,
                   curvatureDirection := some "auto", color := some "#6b7280",
                   width := some 2, showArrow := some true,
                   arrowPosition := some "end", relation := some "generico" }]

/-- Embedding of the mobile `createConnection`
(useConnectionOperations.ts:76-117): same rejection rules; on success the
connection-source reference is cleared. -/
def createConnectionMobile (conns : List ConnRec)
    (connectionSourceNodeId : Option String)
    (sourceNodeId targetNodeId newId : String) : List ConnRec × Option String :=
  if sourceNodeId = targetNodeId then (conns, connectionSourceNodeId)
  else if connectionExists conns sourceNodeId targetNodeId then
    (conns, connectionSourceNodeId)
  else
    (conns ++ [{ id := newId, sourceId := sourceNodeId, targetId := targetNodeId,
                 type := "curved", curvature := some (3/10),
                 color := some "#6b7280", width := some 2, showArrow := some true,
                 arrowPosition := some "end" }],
     none)

/-! ## Theorems for node deletion (C3) -/

/-- C3: deleting node N (on both front ends) keeps exactly the nodes whose id
differs from N, keeps exactly the connections with sourceId and targetId both
different from N (removing every connection referencing N and no other), and
clears the editing reference and the in-progress connection-source reference
when they equal N (leaving them unchanged otherwise). -/
theorem handleNodeDelete_cascade (s : GraphUIState) (m : MobileUIState)
    (nodeId : String) :
    (∀ n, n ∈ (handleNodeDelete nodeId s).nodes ↔ n ∈ s.nodes ∧ n.id ≠ nodeId) ∧
    (∀ c, c ∈ (handleNodeDelete nodeId s).connections ↔
      c ∈ s.connections ∧ c.sourceId ≠ nodeId ∧ c.targetId ≠ nodeId) ∧
    (handleNodeDelete nodeId s).currentEditingNodeId ≠ some nodeId ∧
    (handleNodeDelete nodeId s).connectionSourceNodeId ≠ some nodeId ∧
    (s.currentEditingNodeId ≠ some nodeId →
      (handleNodeDelete nodeId s).currentEditingNodeId = s.currentEditingNodeId) ∧
    (s.connectionSourceNodeId ≠ some nodeId →
      (handleNodeDelete nodeId s).connectionSourceNodeId
        = s.connectionSourceNodeId) ∧
    (∀ n, n ∈ (handleNodeDeleteMobile nodeId m).nodes ↔
      n ∈ m.nodes ∧ n.id ≠ nodeId) ∧
    (∀ c, c ∈ (handleNodeDeleteMobile nodeId m).connections ↔
      c ∈ m.connections ∧ c.sourceId ≠ nodeId ∧ c.targetId ≠ nodeId) ∧
    (handleNodeDeleteMobile nodeId m).currentEditingNodeId ≠ some nodeId ∧
    (handleNodeDeleteMobile nodeId m).connectionSourceNodeId ≠ some nodeId := by
  refine ⟨?_, ?_, ?_, ?_, ?_, ?_, ?_, ?_, ?_, ?_⟩
  · intro n
    simp [handleNodeDelete, List.mem_filter]
  · intro c
    simp [handleNodeDelete, List.mem_filter, and_assoc]
  · simp only [handleNodeDelete]
    split_ifs with h <;> simp_all
  · simp only [handleNodeDelete]
    split_ifs with h <;> simp_all
  · intro h
    simp only [handleNodeDelete, if_neg h]
  · intro h
    simp only [handleNodeDelete, if_neg h]
  · intro n
    simp [handleNodeDeleteMobile, List.mem_filter]
  · intro c
    simp [handleNodeDeleteMobile, List.mem_filter, and_assoc]
  · simp only [handleNodeDeleteMobile]
    split_ifs with h <;> simp_all
  · simp only [handleNodeDeleteMobile]
    split_ifs with h <;> simp_all

/-! ## Theorems for connection creation (C4) -/

lemma connectionExists_append_self (conns : List ConnRec) (a b id1 : String) :
    connectionExists (createConnection conns a b id1) a b = true ∨
    createConnection conns a b id1 = conns := by
  by_cases hab : a = b
  · right
    simp [createConnection, hab]
  · by_cases hex : connectionExists conns a b = true
    · right
      simp [createConnection, hab, hex]
    · left
      simp only [createConnection, if_neg hab, if_neg hex]
      simp [connectionExists, List.any_append]

/-- C4: connection creation on both front ends is rejected with no state
change when source equals target or when a connection between the two ids
already exists in either direction; and after a successful creation of A to
B, attempting A to B or B to A again leaves the connection list (and hence
its count) unchanged. -/
theorem createConnection_rejects_self_and_duplicates (conns : List ConnRec)
    (a b id1 id2 : String) (src : Option String) :
    (a = b → createConnection conns a b id1 = conns) ∧
    (connectionExists conns a b = true → createConnection conns a b id1 = conns) ∧
    (createConnection (createConnection conns a b id1) a b id2
      = createConnection conns a b id1) ∧
    (createConnection (createConnection conns a b id1) b a id2
      = createConnection conns a b id1) ∧
    (a = b → createConnectionMobile conns src a b id1 = (conns, src)) ∧
    (connectionExists conns a b = true →
      createConnectionMobile conns src a b id1 = (conns, src)) ∧
    ((createConnectionMobile (createConnectionMobile conns src a b id1).1
        (createConnectionMobile conns src a b id1).2 a b id2).1
      = (createConnectionMobile conns src a b id1).1) ∧
    ((createConnectionMobile (createConnectionMobile conns src a b id1).1
        (createConnectionMobile conns src a b id1).2 b a id2).1
      = (createConnectionMobile conns src a b id1).1) := by
  refine ⟨?_, ?_, ?_, ?_, ?_, ?_, ?_, ?_⟩
  · intro hab
    simp [createConnection, hab]
  · intro hex
    by_cases hab : a = b <;> simp [createConnection, hab, hex]
  · by_cases hab : a = b
    · simp [createConnection, hab]
    · by_cases hex : connectionExists conns a b = true
      · simp [createConnection, hab, hex]
      · have h1 : createConnection conns a b id1 =
            conns ++ [{ id := id1, sourceId := a, targetId := b,
                        type := "curved", adaptiveCurvature := some true,
                        curvatureDirection := some "auto", color := some "#6b7280",
                        width := some 2, showArrow := some true,
                        arrowPosition := some "end",
                        relation := some "generico" }] := by
          simp [createConnection, hab, hex]
        have hex2 : connectionExists (createConnection conns a b id1) a b = true := by
          rw [h1]
          simp [connectionExists, List.any_append]
        rw [createConnection, if_neg hab, if_pos hex2]
  · by_cases hab : a = b
    · simp [createConnection, hab]
    · by_cases hex : connectionExists conns a b = true
      · have hexba : connectionExists conns b a = true := by
          simp only [connectionExists, List.any_eq_true] at hex ⊢
          obtain ⟨c, hc, hc2⟩ := hex
          refine ⟨c, hc, ?_⟩
          simp only [Bool.or_eq_true, Bool.and_eq_true] at hc2 ⊢
          tauto
        simp [createConnection, hab, hex, hexba]
      · have h1 : createConnection conns a b id1 =
            conns ++ [{ id := id1, sourceId := a, targetId := b,
                        type := "curved", adaptiveCurvature := some true,
                        curvatureDirection := some "auto", color := some "#6b7280",
                        width := some 2, showArrow := some true,
                        arrowPosition := some "end",
                        relation := some "generico" }] := by
          simp [createConnection, hab, hex]
        have hex2 : connectionExists (createConnection conns a b id1) b a = true := by
          rw [h1]
          simp [connectionExists, List.any_append]
        have hba : ¬ b = a := fun hc => hab hc.symm
        rw [createConnection, if_neg hba, if_pos hex2]
  · intro hab
    simp [createConnectionMobile, hab]
  · intro hex
    by_cases hab : a = b <;> simp [createConnectionMobile, hab, hex]
  · by_cases hab : a = b
    · simp [createConnectionMobile, hab]
    · by_cases hex : connectionExists conns a b = true
      · simp [createConnectionMobile, hab, hex]
      · have h1 : (createConnectionMobile conns src a b id1).1 =
            conns ++ [{ id := id1, sourceId := a, targetId := b,
                        type := "curved", curvature := some (3/10),
                        color := some "#6b7280", width := some 2,
                        showArrow := some true,
                        arrowPosition := some "end" }] := by
          simp [createConnectionMobile, hab, hex]
        have hex2 : connectionExists (createConnectionMobile conns src a b id1).1
            a b = true := by
          rw [h1]
          simp [connectionExists, List.any_append]
        conv_lhs => rw [createConnectionMobile, if_neg hab, if_pos hex2]
  · by_cases hab : a = b
    · simp [createConnectionMobile, hab]
    · by_cases hex : connectionExists conns a b = true
      · have hexba : connectionExists conns b a = true := by
          simp only [connectionExists, List.any_eq_true] at hex ⊢
          obtain ⟨c, hc, hc2⟩ := hex
          refine ⟨c, hc, ?_⟩
          simp only [Bool.or_eq_true, Bool.and_eq_true] at hc2 ⊢
          tauto
        simp [createConnectionMobile, hab, hex, hexba]
      · have h1 : (createConnectionMobile conns src a b id1).1 =
            conns ++ [{ id := id1, sourceId := a, targetId := b,
                        type := "curved", curvature := some (3/10),
                        color := some "#6b7280", width := some 2,
                        showArrow := some true,
                        arrowPosition := some "end" }] := by
          simp [createConnectionMobile, hab, hex]
        have hex2 : connectionExists (createConnectionMobile conns src a b id1).1
            b a = true := by
          rw [h1]
          simp [connectionExists, List.any_append]
        have hba : ¬ b = a := fun hc => hab hc.symm
        conv_lhs => rw [createConnectionMobile, if_neg hba, if_pos hex2]

/-- Witness for C4 at concrete inputs: a self-connection is rejected and a
duplicate (in either direction) after a successful creation is rejected. -/
theorem createConnection_rejects_witness :
    createConnection [] "n1" "n1" "c0" = [] ∧
    createConnection (createConnection [] "n1" "n2" "c1") "n1" "n2" "c2"
      = createConnection [] "n1" "n2" "c1" ∧
    createConnection (createConnection [] "n1" "n2" "c1") "n2" "n1" "c2"
      = createConnection [] "n1" "n2" "c1" := by
  have h := createConnection_rejects_self_and_duplicates [] "n1" "n1" "c0" "c2" none
  have h2 := createConnection_rejects_self_and_duplicates [] "n1" "n2" "c1" "c2" none
  exact ⟨h.1 rfl, h2.2.2.1, h2.2.2.2.1⟩

/-- Witness for C6's amended theorem at a concrete angle: 70 degrees is
classified southeast and is not northeast. -/
theorem getDirectionSector_characterization_witness :
    getDirectionSector 70 = .southeast ∧ getDirectionSector 70 ≠ .northeast := by
  have h := getDirectionSector_characterization 70
  have hn : normalizeAngle 70 = 70 :=
    normalizeAngle_of_mem 70 (by norm_num) (by norm_num)
  refine ⟨?_, h.2.2.1⟩
  refine (h.2.2.2.2.1).mpr ?_
  rw [hn]
  norm_num

/-- Witness for C3 at a concrete two-node graph with one connection: deleting
node 1 keeps node 2, drops the connection, and clears both references. -/
theorem handleNodeDelete_cascade_witness :
    (⟨"2", "B", 0, 0, none⟩ : NodeRec) ∈
      (handleNodeDelete "1"
        ⟨[⟨"1", "A", 0, 0, none⟩, ⟨"2", "B", 0, 0, none⟩],
         [{ id := "c1", sourceId := "1", targetId := "2" }],
         some "1", some "1", true⟩).nodes ∧
    ¬ ({ id := "c1", sourceId := "1", targetId := "2" } : ConnRec) ∈
      (handleNodeDelete "1"
        ⟨[⟨"1", "A", 0, 0, none⟩, ⟨"2", "B", 0, 0, none⟩],
         [{ id := "c1", sourceId := "1", targetId := "2" }],
         some "1", some "1", true⟩).connections ∧
    (handleNodeDelete "1"
        ⟨[⟨"1", "A", 0, 0, none⟩, ⟨"2", "B", 0, 0, none⟩],
         [{ id := "c1", sourceId := "1", targetId := "2" }],
         some "1", some "1", true⟩).currentEditingNodeId ≠ some "1" := by
  have h := handleNodeDelete_cascade
    ⟨[⟨"1", "A", 0, 0, none⟩, ⟨"2", "B", 0, 0, none⟩],
     [{ id := "c1", sourceId := "1", targetId := "2" }],
     some "1", some "1", true⟩
    ⟨[], [], none, none⟩ "1"
  refine ⟨?_, ?_, h.2.2.1⟩
  · exact (h.1 _).mpr ⟨by simp, by decide⟩
  · intro hc
    exact ((h.2.1 _).mp hc).2.1 rfl

end MindMaps